import Mathlib

/-!
Shallow embedding of `src/unreal_pak_extractor.py` (Unreal Engine PAK reader).

Archive bytes are modelled as `List Nat` (one element per byte); decoded
strings are modelled as lists of Unicode code points (`List Nat`).  File
reads follow Python file semantics: `f.read(n)` returns at most `n` bytes,
silently truncating at end of file, and a read with a negative count
returns everything from the cursor to the end of file.  A Python exception
raised by `struct.unpack` on a short read is modelled as `none`; every
reader also returns the cursor position after the bytes it consumed, since
the source's exception handlers resume parsing from wherever the cursor
stopped.  The external `zlib` routines are parameters (`zlibD`, `gzipD`)
of type `List Nat → Option (List Nat)`, `none` standing for a raised
`zlib.error`.
-/

/-- Python `f.read(n)` for `n ≥ 0` at cursor `pos`: the next `n` bytes,
truncated at end of file. -/
def readBytes (file : List Nat) (pos n : Nat) : List Nat :=
  (file.drop pos).take n

/-- Python slicing `l[a:b]` for `0 ≤ a ≤ b`. -/
def pySlice (l : List Nat) (a b : Nat) : List Nat :=
  (l.take b).drop a

/-- Little-endian value of a byte list (`struct.unpack` with formats
`<I`/`<Q` on an exact-length read). -/
def leVal (bs : List Nat) : Nat :=
  bs.foldr (fun b acc => b + 256 * acc) 0

/-- Signed reinterpretation of a 32-bit little-endian value
(`struct.unpack` format `<i`). -/
def signed32 (v : Nat) : Int :=
  if v < 2 ^ 31 then (v : Int) else (v : Int) - 2 ^ 32

/-- Python `f.read(n)` with cursor threading: the bytes read and the new
cursor position (the cursor advances only by the bytes actually read). -/
def readN (file : List Nat) (pos n : Nat) : List Nat × Nat :=
  let b := readBytes file pos n
  (b, pos + b.length)

/-- `struct.unpack` of an unsigned little-endian field of `n` bytes at the
cursor: `none` models the `struct.error` raised on a short read. -/
def readUnpack (file : List Nat) (pos n : Nat) : Option Nat × Nat :=
  let (b, p) := readN file pos n
  (if b.length = n then some (leVal b) else none, p)

/-- `bytes.decode('ascii', errors='ignore')`: bytes below 0x80 become code
points, all other bytes are dropped. -/
def asciiDecode (bs : List Nat) : List Nat :=
  bs.filter (fun b => b < 128)

/-- Pair up bytes into little-endian 16-bit code units (a trailing lone
byte is an encoding error and is dropped by `errors='ignore'`). -/
def leUnits : List Nat → List Nat
  | b0 :: b1 :: rest => (b0 + 256 * b1) :: leUnits rest
  | _ => []

/-- Decode a UTF-16 code-unit stream with `errors='ignore'`: surrogate
pairs combine into supplementary code points, unpaired surrogates are
dropped. -/
def decodeUnits : List Nat → List Nat
  | [] => []
  | [u] =>
    if 0xD800 ≤ u ∧ u < 0xE000 then [] else [u]
  | u :: v :: rest =>
    if 0xD800 ≤ u ∧ u < 0xDC00 then
      if 0xDC00 ≤ v ∧ v < 0xE000 then
        (0x10000 + (u - 0xD800) * 0x400 + (v - 0xDC00)) :: decodeUnits rest
      else
        decodeUnits (v :: rest)
    else if 0xDC00 ≤ u ∧ u < 0xE000 then
      decodeUnits (v :: rest)
    else
      u :: decodeUnits (v :: rest)

/-- `bytes.decode('utf-16-le', errors='ignore')`. -/
def utf16leDecode (bs : List Nat) : List Nat :=
  decodeUnits (leUnits bs)

/-- Python `str.rstrip(chr(0))`: remove every trailing NUL code point. -/
def rstripNulls (s : List Nat) : List Nat :=
  (s.reverse.dropWhile (fun c => c == 0)).reverse

/-- `UnrealPakExtractor.read_string` (lines 76-99): a signed 32-bit length
prefix, then either `n` narrow bytes or `2*(-n)` wide bytes, decoded
permissively and stripped of trailing NULs.  `none` models the
`struct.error` on a short length-prefix read. -/
def read_string (file : List Nat) (pos : Nat) : Option (List Nat) × Nat :=
  let (b, p1) := readN file pos 4
  if b.length ≠ 4 then (none, p1)
  else
    let length : Int := signed32 (leVal b)
    if length = 0 then (some [], p1)
    else if length < 0 then
      let (raw, p2) := readN file p1 ((-length).toNat * 2)
      (some (rstripNulls (utf16leDecode raw)), p2)
    else
      let (raw, p2) := readN file p1 length.toNat
      (some (rstripNulls (asciiDecode raw)), p2)

/-- `UnrealPakExtractor.PAK_MAGIC`. -/
def PAK_MAGIC : Nat := 0x5A6F12E1

/-- `UnrealPakExtractor.COMPRESS_None`. -/
def COMPRESS_None : Nat := 0x00

/-- `UnrealPakExtractor.COMPRESS_ZLIB`. -/
def COMPRESS_ZLIB : Nat := 0x01

/-- `UnrealPakExtractor.COMPRESS_GZIP`. -/
def COMPRESS_GZIP : Nat := 0x02

/-- `UnrealPakExtractor.COMPRESS_Custom`. -/
def COMPRESS_Custom : Nat := 0x04

/-- `UnrealPakExtractor.ENCRYPTED_FLAG`. -/
def ENCRYPTED_FLAG : Nat := 0x01

/-- The archive-level metadata `parse_footer` stores on the extractor. -/
structure FooterInfo where
  pak_version : Nat
  index_offset : Nat
  index_size : Nat
  encrypted : Bool
  deriving DecidableEq, Repr

/-- `UnrealPakExtractor.parse_footer` (lines 101-155).  `none` models a
`False` return (file too small, no magic at either position, or the final
index-region validation failing). -/
def parse_footer (file : List Nat) : Option FooterInfo :=
  let file_size := file.length
  if file_size < 44 then none
  else
    let footer_data := readBytes file (file_size - 44) 44
    let encrypted_index := footer_data.getD 16 0
    let magic := leVal (pySlice footer_data 17 21)
    let parsed : Option FooterInfo :=
      if magic ≠ PAK_MAGIC then
        let fd2 := readBytes file (file_size - 28) 28
        if leVal (pySlice fd2 0 4) ≠ PAK_MAGIC then none
        else some ⟨leVal (pySlice fd2 4 8), leVal (pySlice fd2 8 16),
                   leVal (pySlice fd2 16 24), false⟩
      else
        some ⟨leVal (pySlice footer_data 21 25), leVal (pySlice footer_data 25 33),
              leVal (pySlice footer_data 33 41), encrypted_index != 0⟩
    match parsed with
    | none => none
    | some fi =>
      if fi.index_offset ≥ file_size ∨ fi.index_size = 0 then none
      else some fi

/-- One file entry of the PAK index (`UnrealPakEntry`, lines 19-41). -/
structure UnrealPakEntry where
  filename : List Nat
  offset : Nat
  compressed_size : Nat
  uncompressed_size : Nat
  compression_method : Nat
  timestamp : Nat
  hash : List Nat
  compression_blocks : List (Nat × Nat)
  encrypted : Bool
  compression_block_size : Nat := 0
  deriving DecidableEq, Repr

/-- `UnrealPakEntry.is_compressed` (lines 39-41). -/
def is_compressed (e : UnrealPakEntry) : Bool :=
  e.compression_method != 0 && e.compressed_size != e.uncompressed_size

/-- The per-entry encrypted-flag derivation of `parse_index` line 225:
`(compression_method & ENCRYPTED_FLAG) != 0`. -/
def entryEncrypted (compression_method : Nat) : Bool :=
  (compression_method &&& ENCRYPTED_FLAG) != 0

/-- The path normalization of `parse_index` lines 192-198: strip one
leading instance of a non-empty mount point, map backslash (92) to
forward slash (47), then strip all leading slashes (`lstrip`). -/
def normalizePath (mount name : List Nat) : List Nat :=
  let n1 := if (!mount.isEmpty) && mount.isPrefixOf name then
              name.drop mount.length
            else name
  let n2 := n1.map (fun c => if c == 92 then 47 else c)
  n2.dropWhile (fun c => c == 47)

/-- The compression-block-table loop of `parse_index` lines 219-222:
`count` pairs of 64-bit (block_start, block_end) values; `none` models a
`struct.error` on a short read (which skips the whole entry). -/
def readBlocks (file : List Nat) (pos : Nat) :
    Nat → Option (List (Nat × Nat)) × Nat
  | 0 => (some [], pos)
  | Nat.succ k =>
    match readUnpack file pos 8 with
    | (none, p) => (none, p)
    | (some block_start, p1) =>
      match readUnpack file p1 8 with
      | (none, p) => (none, p)
      | (some block_end, p2) =>
        match readBlocks file p2 k with
        | (none, p) => (none, p)
        | (some rest, p3) => (some ((block_start, block_end) :: rest), p3)

/-- The body of the per-entry loop of `parse_index` (lines 184-244): one
entry read at cursor `pos`.  `none` models both a caught per-entry
exception and the `continue` on an empty path; in each case the cursor
position where reading stopped is returned, since the source resumes the
loop from there. -/
def parseEntry (file : List Nat) (version : Nat) (mount : List Nat)
    (pos : Nat) : Option UnrealPakEntry × Nat :=
  match read_string file pos with
  | (none, p) => (none, p)
  | (some rawName, p1) =>
    if rawName = [] then (none, p1)
    else
      let filename := normalizePath mount rawName
      match readUnpack file p1 8 with
      | (none, p) => (none, p)
      | (some offset, p2) =>
      match readUnpack file p2 8 with
      | (none, p) => (none, p)
      | (some compressed_size, p3) =>
      match readUnpack file p3 8 with
      | (none, p) => (none, p)
      | (some uncompressed_size, p4) =>
      match readUnpack file p4 4 with
      | (none, p) => (none, p)
      | (some compression_method, p5) =>
      match (if version ≥ 8 then readUnpack file p5 8 else (some 0, p5)) with
      | (none, p) => (none, p)
      | (some timestamp, p6) =>
        let (file_hash, p7) := readN file p6 20
        match (if compression_method ≠ COMPRESS_None then
                 match readUnpack file p7 4 with
                 | (none, p) => (none, p)
                 | (some block_count, p8) => readBlocks file p8 block_count
               else (some [], p7)) with
        | (none, p) => (none, p)
        | (some compression_blocks, p9) =>
          (some { filename := filename, offset := offset,
                  compressed_size := compressed_size,
                  uncompressed_size := uncompressed_size,
                  compression_method := compression_method,
                  timestamp := timestamp, hash := file_hash,
                  compression_blocks := compression_blocks,
                  encrypted := entryEncrypted compression_method }, p9)

/-- The entry loop of `parse_index` (lines 184-244), iterated `count`
times; yields the successfully parsed (normalized path, entry) pairs in
file order (the source stores them into a dict keyed by the path). -/
def parseEntries (file : List Nat) (version : Nat) (mount : List Nat) :
    Nat → Nat → List (List Nat × UnrealPakEntry) × Nat
  | 0, pos => ([], pos)
  | Nat.succ k, pos =>
    match parseEntry file version mount pos with
    | (none, p1) => parseEntries file version mount k p1
    | (some e, p1) =>
      ((e.filename, e) :: (parseEntries file version mount k p1).1,
       (parseEntries file version mount k p1).2)

/-- `UnrealPakExtractor.parse_index` (lines 157-252).  `none` models a
`False` return: an encrypted index, a failure while reading the mount
point or the entry count, or an entry count above the sanity ceiling. -/
def parse_index (file : List Nat) (footer : FooterInfo) :
    Option (List (List Nat × UnrealPakEntry)) :=
  if footer.encrypted then none
  else
    match read_string file footer.index_offset with
    | (none, _) => none
    | (some mount_point, p1) =>
      match readUnpack file p1 4 with
      | (none, _) => none
      | (some entry_count, p2) =>
        if entry_count > 1000000 then none
        else some (parseEntries file footer.pak_version mount_point
                     entry_count p2).1

/-- `UnrealPakExtractor.decompress_data` (lines 254-270), parameterized by
the external zlib routines; `none` models a raised `zlib.error`, and any
unrecognized method returns the input unchanged. -/
def decompress_data (zlibD gzipD : List Nat → Option (List Nat))
    (data : List Nat) (method : Nat) : Option (List Nat) :=
  if method = COMPRESS_ZLIB then zlibD data
  else if method = COMPRESS_GZIP then gzipD data
  else some data

/-- Python `f.read(n)` for a possibly negative `n`: a negative count reads
everything from the cursor to end of file. -/
def readPy (file : List Nat) (pos : Nat) (n : Int) : List Nat :=
  if n < 0 then file.drop pos else readBytes file pos n.toNat

/-- The compression-block loop of `extract_file_data` (lines 295-307):
each block's bytes are read at `offset + block_start` and decompressed,
with the raw bytes substituted when decompression raises. -/
def extractBlocks (zlibD gzipD : List Nat → Option (List Nat))
    (file : List Nat) (offset method : Nat) :
    List (Nat × Nat) → List Nat
  | [] => []
  | (block_start, block_end) :: rest =>
    let raw := readPy file (offset + block_start)
                 ((block_end : Int) - (block_start : Int))
    (match decompress_data zlibD gzipD raw method with
     | some d => d
     | none => raw) ++ extractBlocks zlibD gzipD file offset method rest

/-- The `try` body of `extract_file_data` (lines 285-316): the three
extraction paths for an entry that passed the encryption check. -/
def extract_body (zlibD gzipD : List Nat → Option (List Nat))
    (file : List Nat) (e : UnrealPakEntry) : Option (List Nat) :=
  if is_compressed e then
    if e.compression_blocks ≠ [] then
      some (extractBlocks zlibD gzipD file e.offset e.compression_method
              e.compression_blocks)
    else
      decompress_data zlibD gzipD (readBytes file e.offset e.compressed_size)
        e.compression_method
  else
    some (readBytes file e.offset e.uncompressed_size)

/-- `UnrealPakExtractor.extract_file_data` (lines 272-320): `none` models
a `None` return (encrypted entry, or an uncaught exception from the
whole-span decompression path). -/
def extract_file_data (zlibD gzipD : List Nat → Option (List Nat))
    (file : List Nat) (e : UnrealPakEntry) : Option (List Nat) :=
  if e.encrypted then none
  else extract_body zlibD gzipD file e

set_option maxRecDepth 100000

/-! Concrete inputs used by the witnesses and counterexamples below. -/

/-- A 44-byte file that is exactly the newer-layout footer of the spec's
scenario: zero GUID, zero flag, magic `E1 12 6F 5A`, version 8,
index_offset 256, index_size 64, and the three slack bytes of the 44-byte
trailer region. -/
def footerNew : List Nat :=
  List.replicate 16 0 ++ [0] ++ [0xE1, 0x12, 0x6F, 0x5A] ++ [8, 0, 0, 0] ++
    [0, 1, 0, 0, 0, 0, 0, 0] ++ [64, 0, 0, 0, 0, 0, 0, 0] ++ [0, 0, 0]

/-- A 364-byte archive ending in `footerNew`, large enough for its
index_offset 256 to pass the index-region validation. -/
def demoArchive : List Nat := List.replicate 320 0 ++ footerNew

/-- A 44-byte file whose last 28 bytes are an older-layout footer with
magic, version 7, index_offset 0 and index_size 0. -/
def oldBad : List Nat :=
  List.replicate 16 0 ++ [0xE1, 0x12, 0x6F, 0x5A] ++ [7, 0, 0, 0] ++
    List.replicate 8 0 ++ List.replicate 8 0 ++ [0, 0, 0, 0]

/-- A 64-byte file whose last 28 bytes are a valid older-layout footer:
magic, version 3, index_offset 4, index_size 16. -/
def oldGood : List Nat :=
  List.replicate 36 9 ++ [0xE1, 0x12, 0x6F, 0x5A] ++ [3, 0, 0, 0] ++
    [4, 0, 0, 0, 0, 0, 0, 0] ++ [16, 0, 0, 0, 0, 0, 0, 0] ++ [0, 0, 0, 0]

/-- A 44-byte file with no PAK magic at either footer position. -/
def noMagic44 : List Nat := List.replicate 44 0

/-- A 66-byte index region: empty mount point, entry count 1, then one
entry named "a" with offset 0, compressed_size 4, uncompressed_size 9,
compression_method 1 (the Zlib code), a zero hash and zero blocks. -/
def pakFile4 : List Nat :=
  [0, 0, 0, 0] ++ [1, 0, 0, 0] ++ [2, 0, 0, 0] ++ [97, 0] ++
    List.replicate 8 0 ++ [4, 0, 0, 0, 0, 0, 0, 0] ++ [9, 0, 0, 0, 0, 0, 0, 0] ++
    [1, 0, 0, 0] ++ List.replicate 20 0 ++ [0, 0, 0, 0]

/-- The footer metadata used to parse `pakFile4`. -/
def footer4 : FooterInfo := ⟨1, 0, 58, false⟩

/-- The entry that parsing `pakFile4` produces: note its method code is
exactly the Zlib value 0x01, so the derived `encrypted` flag is set. -/
def entry4 : UnrealPakEntry :=
  { filename := [97], offset := 0, compressed_size := 4, uncompressed_size := 9,
    compression_method := 1, timestamp := 0, hash := List.replicate 20 0,
    compression_blocks := [], encrypted := true }

/-- A decompressor that always fails (raises), used to instantiate the
zlib/gzip parameters in concrete runs. -/
def z0 : List Nat → Option (List Nat) := fun _ => none

/-- A second always-failing decompressor for the gzip parameter. -/
def g0 : List Nat → Option (List Nat) := fun _ => none

/-- An unencrypted entry with the unknown method code 0x08 and equal
sizes 5/5, whose payload range [0, 5) overruns a 2-byte archive. -/
def entry6 : UnrealPakEntry :=
  { filename := [99], offset := 0, compressed_size := 5, uncompressed_size := 5,
    compression_method := 8, timestamp := 0, hash := [],
    compression_blocks := [], encrypted := false }

/-- An unencrypted entry with method 8 and equal sizes 2/2 at offset 1,
whose payload range fits inside a 3-byte archive. -/
def entry6w : UnrealPakEntry :=
  { filename := [99], offset := 1, compressed_size := 2, uncompressed_size := 2,
    compression_method := 8, timestamp := 0, hash := [],
    compression_blocks := [], encrypted := false }

/-- An unencrypted stored (method None) entry of size 5 whose payload
range overruns a 3-byte archive. -/
def entry7 : UnrealPakEntry :=
  { filename := [100], offset := 0, compressed_size := 5, uncompressed_size := 5,
    compression_method := 0, timestamp := 0, hash := [],
    compression_blocks := [], encrypted := false }

/-- An unencrypted compressed entry (method Gzip, sizes 4/9) with a
two-block table covering byte ranges [0,2) and [2,4). -/
def entry10 : UnrealPakEntry :=
  { filename := [98], offset := 0, compressed_size := 4, uncompressed_size := 9,
    compression_method := 2, timestamp := 0, hash := [],
    compression_blocks := [(0, 2), (2, 4)], encrypted := false }

/-- C1 counterexample: a 44-byte file that carries the spec scenario's
newer-layout footer (magic at bytes [17..21], version 8, index_offset 256,
index_size 64), yet `parse_footer` fails, because the decoded
index_offset 256 is not below the 44-byte file size.  The claim asserts
success for every file of at least 44 bytes with the magic in place, with
no index-region proviso, so this input refutes it. -/
theorem parse_footer_scenario_fails_on_bare_footer :
    footerNew.length = 44 ∧
    leVal (pySlice (readBytes footerNew (footerNew.length - 44) 44) 17 21) = PAK_MAGIC ∧
    parse_footer footerNew = none := by decide

/-- C1 (amended): for every file of at least 44 bytes whose last 44 bytes
carry the little-endian magic at [17..21], and whose decoded index_offset
is below the file size with a nonzero index_size, `parse_footer` succeeds
and yields version = bytes[21..25], index_offset = bytes[25..33],
index_size = bytes[33..41] and encrypted = (byte[16] != 0). -/
theorem parse_footer_new_layout (file fd : List Nat)
    (hfd : fd = readBytes file (file.length - 44) 44)
    (h44 : 44 ≤ file.length)
    (hmagic : leVal (pySlice fd 17 21) = PAK_MAGIC)
    (hoff : leVal (pySlice fd 25 33) < file.length)
    (hsz : leVal (pySlice fd 33 41) ≠ 0) :
    parse_footer file =
      some ⟨leVal (pySlice fd 21 25), leVal (pySlice fd 25 33),
            leVal (pySlice fd 33 41), fd.getD 16 0 != 0⟩ := by
  subst hfd
  have h1 : ¬ file.length < 44 := by omega
  have h2 : ¬ (leVal (pySlice (readBytes file (file.length - 44) 44) 17 21) ≠ PAK_MAGIC) := by
    simp [hmagic]
  simp only [parse_footer, if_neg h1, if_neg h2]
  rw [if_neg]
  simp only [not_or]
  exact ⟨by simpa using Nat.not_le.mpr hoff, hsz⟩

/-- C1 witness: the spec scenario's footer, embedded at the end of a
364-byte archive, parses to version 8, index_offset 256, index_size 64,
unencrypted. -/
theorem parse_footer_new_layout_witness :
    parse_footer demoArchive = some ⟨8, 256, 64, false⟩ :=
  (parse_footer_new_layout demoArchive footerNew (by decide) (by decide)
    (by decide) (by decide) (by decide)).trans (by decide)

/-- C2 counterexample: a 44-byte file with no magic at the newer position
and a valid older-layout magic in its last 28 bytes, but index_size 0.
`parse_footer` fails instead of yielding the decoded fields, because the
older layout is still subject to the index-region validation; the claim
asserts the fields are yielded whenever the older magic matches, so this
input refutes it. -/
theorem parse_footer_old_fields_not_unconditional :
    leVal (pySlice (readBytes oldBad (oldBad.length - 44) 44) 17 21) ≠ PAK_MAGIC ∧
    leVal (pySlice (readBytes oldBad (oldBad.length - 28) 28) 0 4) = PAK_MAGIC ∧
    parse_footer oldBad = none := by decide

/-- C2 (amended): for every file of at least 44 bytes without the magic at
the newer footer position, `parse_footer` retries on the last 28 bytes as
the older layout; when that magic matches and the decoded index_offset is
below the file size with a nonzero index_size it yields magic =
bytes[0..4], version = bytes[4..8], index_offset = bytes[8..16],
index_size = bytes[16..24] with encrypted = false, and when neither
layout's magic matches it fails with no metadata produced. -/
theorem parse_footer_old_layout (file fd2 : List Nat)
    (hfd : fd2 = readBytes file (file.length - 28) 28)
    (h44 : 44 ≤ file.length)
    (hnew : leVal (pySlice (readBytes file (file.length - 44) 44) 17 21) ≠ PAK_MAGIC) :
    (leVal (pySlice fd2 0 4) = PAK_MAGIC →
      leVal (pySlice fd2 8 16) < file.length →
      leVal (pySlice fd2 16 24) ≠ 0 →
      parse_footer file =
        some ⟨leVal (pySlice fd2 4 8), leVal (pySlice fd2 8 16),
              leVal (pySlice fd2 16 24), false⟩) ∧
    (leVal (pySlice fd2 0 4) ≠ PAK_MAGIC → parse_footer file = none) := by
  subst hfd
  have h1 : ¬ file.length < 44 := by omega
  constructor
  · intro hm hoff hsz
    have h2 : ¬ (leVal (pySlice (readBytes file (file.length - 28) 28) 0 4) ≠ PAK_MAGIC) := by
      simp [hm]
    simp only [parse_footer, if_pos hnew, if_neg h1, if_neg h2]
    rw [if_neg]
    simp only [not_or]
    exact ⟨by simpa using Nat.not_le.mpr hoff, hsz⟩
  · intro hm
    simp only [parse_footer, if_pos hnew, if_neg h1, if_pos hm]

/-- C2 witness: a valid older-layout archive parses to version 3,
index_offset 4, index_size 16, unencrypted; and a 44-byte file with no
magic anywhere is rejected with no metadata. -/
theorem parse_footer_old_layout_witness :
    parse_footer oldGood = some ⟨3, 4, 16, false⟩ ∧
    parse_footer noMagic44 = none := by
  constructor
  · exact (((parse_footer_old_layout oldGood
      (readBytes oldGood (oldGood.length - 28) 28) (by decide) (by decide)
      (by decide)).1 (by decide) (by decide) (by decide)).trans (by decide))
  · exact (parse_footer_old_layout noMagic44
      (readBytes noMagic44 (noMagic44.length - 28) 28) (by decide) (by decide)
      (by decide)).2 (by decide)

/-- C3 counterexample: the per-entry encrypted flag derived by
`parse_index` is not the top bit of the 32-bit compression_method field,
and it is not disjoint from the codec values: the Zlib codec value 0x01
has the flag set while its top bit is clear, and a field with only the
top bit set is not flagged. -/
theorem encrypted_flag_not_top_bit :
    entryEncrypted COMPRESS_ZLIB = true ∧
    COMPRESS_ZLIB &&& 0x80000000 = 0 ∧
    entryEncrypted (2 ^ 31) = false := by decide

/-- C3 (amended): the per-entry encrypted-payload flag is the LOW bit
(0x01) of the 32-bit compression_method field; it is clear on the codec
values None (0x00), Gzip (0x02) and CustomReserved (0x04), so those
codecs can appear on unencrypted entries, but it collides with the Zlib
codec value (0x01), whose low bit is set. -/
theorem encrypted_flag_is_low_bit :
    (∀ m : Nat, entryEncrypted m = (m % 2 == 1)) ∧
    entryEncrypted COMPRESS_None = false ∧
    entryEncrypted COMPRESS_GZIP = false ∧
    entryEncrypted COMPRESS_Custom = false ∧
    entryEncrypted COMPRESS_ZLIB = true := by
  refine ⟨?_, by decide, by decide, by decide, by decide⟩
  intro m
  rcases Nat.mod_two_eq_zero_or_one m with h | h <;>
    simp [entryEncrypted, ENCRYPTED_FLAG, Nat.and_one_is_mod, h]

/-- Any entry produced by the per-entry loop has its `encrypted` flag
derived from the low bit of its `compression_method` field
(`parse_index` line 225). -/
theorem parseEntry_encrypted_eq (file : List Nat) (version : Nat)
    (mount : List Nat) (pos : Nat) (e : UnrealPakEntry) (p : Nat)
    (h : parseEntry file version mount pos = (some e, p)) :
    e.encrypted = entryEncrypted e.compression_method := by
  unfold parseEntry at h
  repeat' split at h
  all_goals try simp_all
  obtain ⟨he, -⟩ := h
  subst he
  rfl

/-- Every (path, entry) pair accumulated by the entry loop satisfies the
same flag derivation. -/
theorem parseEntries_encrypted_eq (file : List Nat) (version : Nat)
    (mount : List Nat) :
    ∀ (count pos : Nat) (name : List Nat) (e : UnrealPakEntry),
      (name, e) ∈ (parseEntries file version mount count pos).1 →
      e.encrypted = entryEncrypted e.compression_method := by
  intro count
  induction count with
  | zero => intro pos name e h; simp [parseEntries] at h
  | succ k ih =>
    intro pos name e h
    rcases h1 : parseEntry file version mount pos with ⟨oe, p1⟩
    cases oe with
    | none =>
      rw [parseEntries, h1] at h
      exact ih p1 name e h
    | some e1 =>
      rw [parseEntries, h1] at h
      rcases List.mem_cons.mp h with h2 | h2
      · have he : e = e1 := congrArg Prod.snd h2
        subst he
        exact parseEntry_encrypted_eq file version mount pos e p1 h1
      · exact ih p1 name e h2

/-- C4: every entry parsed from an index whose compression_method field
equals 0x01 (the Zlib codec value) carries a set encrypted flag, so
`extract_file_data` refuses it and returns failure for every archive
content and every decompressor — in particular the Zlib decompression
branch is never reached from the extraction of such an entry. -/
theorem zlib_code_entry_refused (file : List Nat) (footer : FooterInfo)
    (entries : List (List Nat × UnrealPakEntry)) (name : List Nat)
    (e : UnrealPakEntry)
    (hp : parse_index file footer = some entries)
    (hmem : (name, e) ∈ entries)
    (hm : e.compression_method = COMPRESS_ZLIB) :
    e.encrypted = true ∧
    ∀ (zlibD gzipD : List Nat → Option (List Nat)) (f2 : List Nat),
      extract_file_data zlibD gzipD f2 e = none := by
  have henc : e.encrypted = entryEncrypted e.compression_method := by
    unfold parse_index at hp
    repeat' split at hp
    all_goals try (exact Option.noConfusion hp)
    replace hp := Option.some.inj hp
    subst hp
    exact parseEntries_encrypted_eq _ _ _ _ _ name e hmem
  have htrue : e.encrypted = true := by rw [henc, hm]; decide
  refine ⟨htrue, ?_⟩
  intro zlibD gzipD f2
  simp [extract_file_data, htrue]

/-- C4 witness: parsing the concrete 66-byte index `pakFile4` yields the
single method-0x01 entry `entry4`, which is marked encrypted and whose
extraction fails for every decompressor and archive content. -/
theorem zlib_code_entry_refused_witness :
    entry4.encrypted = true ∧
    ∀ (zlibD gzipD : List Nat → Option (List Nat)) (f2 : List Nat),
      extract_file_data zlibD gzipD f2 entry4 = none :=
  zlib_code_entry_refused pakFile4 footer4 [([97], entry4)] [97] entry4
    (by decide) (by decide) (by decide)

/-- C5: a set archive-level encrypted flag makes `parse_index` fail for
every file content, producing no entry mapping at all; a set per-entry
encrypted flag only makes that entry's extraction fail; and every entry
with a clear flag is extracted exactly by the normal (encryption-free)
extraction body, unaffected by any other entry. -/
theorem encrypted_index_isolation (file : List Nat) (footer : FooterInfo)
    (e : UnrealPakEntry) (zlibD gzipD : List Nat → Option (List Nat))
    (hf : footer.encrypted = true) (he : e.encrypted = true) :
    parse_index file footer = none ∧
    extract_file_data zlibD gzipD file e = none ∧
    (∀ e2 : UnrealPakEntry, e2.encrypted = false →
      extract_file_data zlibD gzipD file e2 = extract_body zlibD gzipD file e2) := by
  refine ⟨?_, ?_, ?_⟩
  · simp [parse_index, hf]
  · simp [extract_file_data, he]
  · intro e2 h2
    simp [extract_file_data, h2]

/-- C5 witness: an encrypted footer yields no entries on a concrete file,
extraction of the encrypted `entry4` fails, and extraction of the
unencrypted `entry6` goes through the normal extraction body. -/
theorem encrypted_index_isolation_witness :
    parse_index pakFile4 ⟨1, 0, 58, true⟩ = none ∧
    extract_file_data z0 g0 pakFile4 entry4 = none ∧
    extract_file_data z0 g0 pakFile4 entry6 = extract_body z0 g0 pakFile4 entry6 := by
  have h := encrypted_index_isolation pakFile4 ⟨1, 0, 58, true⟩ entry4 z0 g0
    (by decide) (by decide)
  exact ⟨h.1, h.2.1, h.2.2 entry6 (by decide)⟩

/-- C6 counterexample: `entry6` is unencrypted with equal sizes 5/5 (so it
is treated as uncompressed), but over a 2-byte archive the extraction
returns only the 2 available bytes, not "exactly uncompressed_size
bytes" as the claim states for every such entry. -/
theorem stored_entry_truncated_counterexample :
    extract_file_data z0 g0 [1, 2] entry6 = some [1, 2] ∧
    entry6.compressed_size = entry6.uncompressed_size ∧
    entry6.uncompressed_size = 5 ∧
    ¬ ([1, 2] : List Nat).length = entry6.uncompressed_size := by decide

/-- C6 (amended): for every unencrypted entry with compression_method
None or equal sizes, whose payload range lies within the archive,
extraction reads exactly uncompressed_size bytes at the entry's offset
and returns them verbatim (independently of any decompressor); size
equality takes precedence over a nonzero method code such as 0x08. -/
theorem stored_entry_exact_when_in_range
    (zlibD gzipD : List Nat → Option (List Nat)) (file : List Nat)
    (e : UnrealPakEntry) (he : e.encrypted = false)
    (hu : e.compression_method = COMPRESS_None ∨
          e.compressed_size = e.uncompressed_size)
    (hr : e.offset + e.uncompressed_size ≤ file.length) :
    extract_file_data zlibD gzipD file e =
      some (readBytes file e.offset e.uncompressed_size) ∧
    (readBytes file e.offset e.uncompressed_size).length = e.uncompressed_size := by
  have hic : is_compressed e = false := by
    rcases hu with h | h <;> simp [is_compressed, h, COMPRESS_None]
  constructor
  · simp [extract_file_data, he, extract_body, hic]
  · simp only [readBytes, List.length_take, List.length_drop]
    omega

/-- C6 witness: the method-0x08 equal-sizes entry `entry6w` with range
[1, 3) inside a 3-byte archive extracts verbatim to exactly its 2 bytes. -/
theorem stored_entry_exact_witness :
    extract_file_data z0 g0 [5, 6, 7] entry6w = some [6, 7] ∧
    (readBytes [5, 6, 7] entry6w.offset entry6w.uncompressed_size).length =
      entry6w.uncompressed_size := by
  have h := stored_entry_exact_when_in_range z0 g0 [5, 6, 7] entry6w
    (by decide) (Or.inr (by decide)) (by decide)
  exact ⟨h.1.trans (by decide), h.2⟩

/-- C7 counterexample: for the unencrypted stored entry `entry7` of size
5 over a 3-byte archive, extraction succeeds with only 3 bytes — a
silently truncated result with no failure signal, refuting the claim
that the caller always receives either the complete entry bytes or a
specific failure when the range extends past end of file. -/
theorem extract_one_silent_truncation_counterexample :
    extract_file_data z0 g0 [1, 2, 3] entry7 = some [1, 2, 3] ∧
    (some [1, 2, 3] : Option (List Nat)) ≠ none ∧
    ([1, 2, 3] : List Nat).length < entry7.uncompressed_size := by decide

/-- C7 (amended): for every uncompressed, unencrypted entry, extraction
returns the bytes present at [data_offset, data_offset +
uncompressed_size): exactly uncompressed_size bytes when that range lies
within the archive, but when the range extends past end of file it
returns only the available `file.length - data_offset` bytes as a
success, with no failure signal. -/
theorem extract_one_exact_or_silently_short
    (zlibD gzipD : List Nat → Option (List Nat)) (file : List Nat)
    (e : UnrealPakEntry) (he : e.encrypted = false)
    (hc : is_compressed e = false) :
    extract_file_data zlibD gzipD file e =
      some (readBytes file e.offset e.uncompressed_size) ∧
    (e.offset + e.uncompressed_size ≤ file.length →
      (readBytes file e.offset e.uncompressed_size).length = e.uncompressed_size) ∧
    (file.length < e.offset + e.uncompressed_size →
      (readBytes file e.offset e.uncompressed_size).length =
        file.length - e.offset) := by
  refine ⟨by simp [extract_file_data, he, extract_body, hc], ?_, ?_⟩ <;>
    (intro h; simp only [readBytes, List.length_take, List.length_drop,
      Nat.min_def]; split <;> omega)

/-- C7 witness: extraction of `entry7` over a 3-byte archive returns the
3 available bytes, fewer than its stated size 5. -/
theorem extract_one_exact_witness :
    extract_file_data z0 g0 [5, 6, 7] entry7 = some [5, 6, 7] ∧
    ([5, 6, 7] : List Nat).length < entry7.uncompressed_size := by
  have h := extract_one_exact_or_silently_short z0 g0 [5, 6, 7] entry7
    (by decide) (by decide)
  exact ⟨h.1.trans (by decide), by decide⟩

/-- Helper: the head of a list after dropping leading NULs is never NUL. -/
theorem dropWhile_nul_head_ne (l : List Nat) :
    (l.dropWhile (fun c => c == 0)).head? ≠ some 0 := by
  induction l with
  | nil => simp
  | cons a t ih =>
    by_cases h : a = 0
    · simpa [List.dropWhile_cons, h] using ih
    · simp [List.dropWhile_cons, h]

/-- Helper: `rstrip` removes a trailing NUL (and by iteration all of
them). -/
theorem rstripNulls_append_nul (l : List Nat) :
    rstripNulls (l ++ [0]) = rstripNulls l := by
  simp [rstripNulls, List.reverse_append, List.dropWhile_cons]

/-- Helper: nothing `rstripNulls` returns ends in a NUL. -/
theorem rstripNulls_no_trailing_nul (l : List Nat) :
    (rstripNulls l).getLast? ≠ some 0 := by
  simpa [rstripNulls, List.getLast?_reverse] using
    dropWhile_nul_head_ne l.reverse

/-- C8 counterexample: a string field with length prefix 3 and content
"a\x00\x00" decodes to just "a" — `read_string` strips ALL trailing
nulls via `rstrip`, not exactly one; the claim's prediction "a\x00"
(keeping all but the last null) is refuted. -/
theorem read_string_strips_all_nulls_counterexample :
    read_string [3, 0, 0, 0, 97, 0, 0] 0 = (some [97], 7) ∧
    (some [97] : Option (List Nat)) ≠ some [97, 0] := by decide

/-- C8 (amended): a positive length prefix n reads n bytes decoded as
single-byte-per-character text, a negative prefix n reads 2*(-n) bytes
decoded as two-byte little-endian code units, and in both cases ALL
trailing null terminators are stripped — the result never ends in a
null, and a string whose decoded content ends in several nulls loses
every one of them. -/
theorem read_string_spec (file : List Nat) (pos : Nat) (n : Int)
    (hn : n = signed32 (leVal (readBytes file pos 4)))
    (h4 : (readBytes file pos 4).length = 4) :
    (0 < n → read_string file pos =
      (some (rstripNulls (asciiDecode (readBytes file (pos + 4) n.toNat))),
       pos + 4 + (readBytes file (pos + 4) n.toNat).length)) ∧
    (n < 0 → read_string file pos =
      (some (rstripNulls (utf16leDecode (readBytes file (pos + 4) ((-n).toNat * 2)))),
       pos + 4 + (readBytes file (pos + 4) ((-n).toNat * 2)).length)) ∧
    (∀ l : List Nat, rstripNulls (l ++ [0]) = rstripNulls l) ∧
    (∀ l : List Nat, (rstripNulls l).getLast? ≠ some 0) := by
  subst hn
  refine ⟨?_, ?_, rstripNulls_append_nul, rstripNulls_no_trailing_nul⟩
  · intro hpos
    have h0 : ¬ signed32 (leVal (readBytes file pos 4)) = 0 := by omega
    have h1 : ¬ signed32 (leVal (readBytes file pos 4)) < 0 := by omega
    simp [read_string, readN, h4, h0, h1]
  · intro hneg
    have h0 : ¬ signed32 (leVal (readBytes file pos 4)) = 0 := by omega
    simp [read_string, readN, h4, h0, hneg]

/-- C8 witness: a narrow string of length 2 ("a\x00") decodes to "a"
consuming 6 bytes, and a wide string with prefix -2 reads 4 bytes and
decodes to "ab", consuming 8 bytes. -/
theorem read_string_spec_witness :
    read_string [2, 0, 0, 0, 97, 0] 0 = (some [97], 6) ∧
    read_string [254, 255, 255, 255, 97, 0, 98, 0] 0 = (some [97, 98], 8) := by
  have h1 := (read_string_spec [2, 0, 0, 0, 97, 0] 0 2
    (by decide) (by decide)).1 (by decide)
  have h2 := (read_string_spec [254, 255, 255, 255, 97, 0, 98, 0] 0 (-2)
    (by decide) (by decide)).2.1 (by decide)
  exact ⟨h1.trans (by decide), h2.trans (by decide)⟩

/-- Helper: every code point of a normalized path differs from backslash
(92), since the backslash-to-slash map runs over the whole string. -/
theorem mem_normalizePath_ne (mount p : List Nat) (c : Nat)
    (hc : c ∈ normalizePath mount p) : c ≠ 92 := by
  simp only [normalizePath] at hc
  have h1 := (List.dropWhile_sublist _).subset hc
  obtain ⟨a, -, rfl⟩ := List.mem_map.mp h1
  by_cases h : a = 92 <;> simp [h]

/-- Helper: `dropWhile` is idempotent. -/
theorem dropWhile_dropWhile (q : Nat → Bool) (l : List Nat) :
    (l.dropWhile q).dropWhile q = l.dropWhile q := by
  induction l with
  | nil => simp
  | cons a t ih =>
    by_cases h : q a = true
    · simp [List.dropWhile_cons, h, ih]
    · simp [List.dropWhile_cons, h]

/-- Helper: the definitional shape of one normalization pass. -/
theorem normalizePath_shape (mount p : List Nat) :
    normalizePath mount p =
      ((if (!mount.isEmpty) && mount.isPrefixOf p then p.drop mount.length
        else p).map (fun c => if c == 92 then 47 else c)).dropWhile
        (fun c => c == 47) := rfl

/-- C9 counterexample: with mount point "a" and raw path "aab", one
normalization pass yields "ab", but a second pass strips the mount point
again and yields "b" — normalization is not idempotent for every mount
point and path, refuting the claim. -/
theorem normalize_not_idempotent_counterexample :
    normalizePath [97] (normalizePath [97] [97, 97, 98]) ≠
      normalizePath [97] [97, 97, 98] := by decide

/-- C9 (amended): normalization is idempotent whenever the once-normalized
path does not itself begin with the (non-empty) mount point — in general
a second pass can strip a further instance of the mount point; one pass
removes exactly one leading instance of a non-empty mount-point prefix
before slash conversion and leading-slash stripping; and normalization
converts every backslash, so no normalized path contains one. -/
theorem normalize_idempotent_unless_prefix_reappears :
    (∀ mount p : List Nat,
      (mount = [] ∨ mount.isPrefixOf (normalizePath mount p) = false) →
      normalizePath mount (normalizePath mount p) = normalizePath mount p) ∧
    (∀ mount p : List Nat, mount ≠ [] → mount.isPrefixOf p = true →
      normalizePath mount p =
        ((p.drop mount.length).map (fun c => if c == 92 then 47 else c)).dropWhile
          (fun c => c == 47)) ∧
    (∀ mount p : List Nat, 92 ∉ normalizePath mount p) := by
  refine ⟨?_, ?_, ?_⟩
  · intro mount p hcase
    have hcond : ((!mount.isEmpty) && mount.isPrefixOf (normalizePath mount p)) = false := by
      rcases hcase with h | h <;> simp [h]
    rw [normalizePath_shape mount (normalizePath mount p), if_neg (by simp [hcond])]
    have hmapf : (normalizePath mount p).map (fun c => if c == 92 then 47 else c) =
        normalizePath mount p := by
      have h1 : (normalizePath mount p).map (fun c => if c == 92 then 47 else c) =
          (normalizePath mount p).map id :=
        List.map_congr_left (fun a ha => by
          have h2 : a ≠ 92 := mem_normalizePath_ne mount p a ha
          simp [h2])
      rw [h1, List.map_id]
    rw [hmapf]
    rw [normalizePath_shape mount p]
    exact dropWhile_dropWhile _ _
  · intro mount p hne hpre
    have h1 : mount.isEmpty = false := by
      cases mount with
      | nil => exact absurd rfl hne
      | cons a t => rfl
    simp [normalizePath, h1, hpre]
  · intro mount p hmem
    exact mem_normalizePath_ne mount p 92 hmem rfl

/-- C9 witness: with an empty mount point normalization of "\a" is
idempotent; a one-pass normalization of "b\a" under mount point "b"
strips one prefix instance and converts the backslash, yielding "a";
and no backslash survives normalization. -/
theorem normalize_idempotent_witness :
    normalizePath [] (normalizePath [] [92, 97]) = normalizePath [] [92, 97] ∧
    normalizePath [98] [98, 92, 97] = [97] ∧
    92 ∉ normalizePath [97] [92] := by
  refine ⟨normalize_idempotent_unless_prefix_reappears.1 [] [92, 97] (Or.inl rfl),
    (normalize_idempotent_unless_prefix_reappears.2.1 [98] [98, 92, 97]
      (by decide) (by decide)).trans (by decide),
    normalize_idempotent_unless_prefix_reappears.2.2 [97] [92]⟩

/-- Helper: a Python read of `block_end - block_start` bytes equals the
nonnegative-count read when the block is well-formed. -/
theorem readPy_sub_of_le (file : List Nat) (pos : Nat) (a b : Nat)
    (h : b ≤ a) :
    readPy file pos ((a : Int) - (b : Int)) = readBytes file pos (a - b) := by
  rw [readPy, if_neg (by omega), Int.toNat_sub]

/-- Helper: the block loop produces the concatenation, in table order, of
each block's decompressed bytes, with the raw bytes substituted for any
block whose decompression fails. -/
theorem extractBlocks_concat (zlibD gzipD : List Nat → Option (List Nat))
    (file : List Nat) (offset method : Nat) :
    ∀ bl : List (Nat × Nat), (∀ pr ∈ bl, pr.1 ≤ pr.2) →
      extractBlocks zlibD gzipD file offset method bl =
        (bl.map (fun pr =>
          match decompress_data zlibD gzipD
              (readBytes file (offset + pr.1) (pr.2 - pr.1)) method with
          | some d => d
          | none => readBytes file (offset + pr.1) (pr.2 - pr.1))).flatten := by
  intro bl
  induction bl with
  | nil => intro h; simp [extractBlocks]
  | cons hd tl ih =>
    intro h
    obtain ⟨bs, be⟩ := hd
    have hbe : bs ≤ be := h (bs, be) (by simp)
    simp only [extractBlocks, List.map_cons, List.flatten_cons]
    rw [readPy_sub_of_le file (offset + bs) be bs hbe]
    rw [ih (fun pr hpr => h pr (List.mem_cons_of_mem _ hpr))]

/-- C10: for every unencrypted compressed entry with a non-empty
well-formed block table, extraction succeeds and returns exactly the
concatenation, in table order, of each block's contribution — the
decompression of the `block_end - block_start` bytes read at
`data_offset + block_start` when it succeeds, and those raw bytes when it
fails; a failing block never aborts the entry and every later block is
still processed. -/
theorem blocks_extraction (zlibD gzipD : List Nat → Option (List Nat))
    (file : List Nat) (e : UnrealPakEntry)
    (he : e.encrypted = false) (hc : is_compressed e = true)
    (hb : e.compression_blocks ≠ [])
    (hwf : ∀ pr ∈ e.compression_blocks, pr.1 ≤ pr.2) :
    extract_file_data zlibD gzipD file e =
      some ((e.compression_blocks.map (fun pr =>
        match decompress_data zlibD gzipD
            (readBytes file (e.offset + pr.1) (pr.2 - pr.1))
            e.compression_method with
        | some d => d
        | none => readBytes file (e.offset + pr.1) (pr.2 - pr.1))).flatten) := by
  rw [extract_file_data, if_neg (by simp [he]), extract_body, if_pos hc,
    if_pos hb, extractBlocks_concat zlibD gzipD file e.offset
      e.compression_method e.compression_blocks hwf]

/-- C10 witness: the two-block entry `entry10`, extracted with a
decompressor that fails on every block, yields the raw bytes of both
blocks in order — the second block is processed despite the first one
failing. -/
theorem blocks_extraction_witness :
    extract_file_data z0 g0 [10, 20, 30, 40] entry10 =
      some [10, 20, 30, 40] :=
  (blocks_extraction z0 g0 [10, 20, 30, 40] entry10 (by decide) (by decide)
    (by decide) (by decide)).trans (by decide)
